import Mathlib

/-!
# Verification of the rule-based diagnostic engine (`src/diagnostic-engine.js`)

A shallow embedding of the `DiagnosticEngine` class.  JavaScript numbers are
modelled as rationals (`ℚ`); the rule data consumed by the engine is plain JSON,
so `NaN`/`Infinity`/`-0` never arise.  JavaScript objects that the engine
iterates with `Object.entries` are modelled as association lists, which is
faithful because string-keyed JS objects enumerate in insertion order.
-/

namespace WebAnalyzer

/-- A JavaScript primitive value, as can appear in a signals map or as an
operator threshold: a number, a string, a boolean, or `null`. -/
inductive JSVal where
  | num (q : ℚ)
  | str (s : String)
  | bool (b : Bool)
  | null
deriving DecidableEq, Repr

/-- Digit-list to natural number (callers guarantee the characters are ASCII
digits; `[]` yields `0`, matching `ofDigits` use sites below). -/
def ofDigits (cs : List Char) : ℕ :=
  cs.foldl (fun a c => a * 10 + (c.toNat - 48)) 0

/-- ECMAScript `ToNumber` on a string, restricted to optionally signed decimal
numerals (the only string forms occurring as rule thresholds/signals):
`""` is `0`, `"5"`, `"+5"`, `"-2.5"`, `"5."`, `".5"` parse as expected, and
anything else is `NaN`, modelled as `none`.  (Whitespace trimming, `Infinity`
and hex/binary forms are omitted; they do not occur in the rule data.) -/
def strToNum (s : String) : Option ℚ :=
  match s.toList with
  | [] => some 0
  | cs =>
    let core : List Char × Bool :=
      match cs with
      | '-' :: t => (t, true)
      | '+' :: t => (t, false)
      | _ => (cs, false)
    match core.1 with
    | [] => none
    | _ :: _ =>
      let ip := core.1.takeWhile (·.isDigit)
      let iv : ℤ := if core.2 then -(ofDigits ip : ℤ) else (ofDigits ip : ℤ)
      match core.1.dropWhile (·.isDigit) with
      | [] => some (iv : ℚ)
      | '.' :: fp =>
        if fp.all (·.isDigit) then
          if ip.isEmpty && fp.isEmpty then none
          else
            let f : ℚ := (ofDigits fp : ℚ) / (10 : ℚ) ^ fp.length
            some (if core.2 then (iv : ℚ) - f else (iv : ℚ) + f)
        else none
      | _ => none

/-- ECMAScript `ToNumber` on a primitive value; `none` models `NaN`. -/
def toNum : JSVal → Option ℚ
  | .num q => some q
  | .bool b => some (if b then 1 else 0)
  | .null => some 0
  | .str s => strToNum s

/-- ECMAScript loose equality (`==`) on the primitive values above, as used by
the engine's `'=='` and `'!='` operator cases (lines 157-162). -/
def jsLooseEq : JSVal → JSVal → Bool
  | .num a, .num b => decide (a = b)
  | .str a, .str b => decide (a = b)
  | .bool a, .bool b => decide (a = b)
  | .null, .null => true
  | .num a, .str s =>
    match strToNum s with
    | some b => decide (a = b)
    | none => false
  | .str s, .num a =>
    match strToNum s with
    | some b => decide (b = a)
    | none => false
  | .num a, .bool b => decide (a = (if b then 1 else 0))
  | .bool b, .num a => decide ((if b then (1 : ℚ) else 0) = a)
  | .str s, .bool b =>
    match strToNum s with
    | some q => decide (q = (if b then (1 : ℚ) else 0))
    | none => false
  | .bool b, .str s =>
    match strToNum s with
    | some q => decide ((if b then (1 : ℚ) else 0) = q)
    | none => false
  | _, _ => false

/-- The ECMAScript abstract relational comparison `v < w`:
string-to-string comparison is lexicographic, otherwise both sides are
converted with `ToNumber`; `none` (a `NaN` operand) makes the comparison
undefined. -/
def jsRel : JSVal → JSVal → Option Bool
  | .str a, .str b => some (decide (a < b))
  | v, w =>
    match toNum v, toNum w with
    | some x, some y => some (decide (x < y))
    | _, _ => none

/-- JS `value > threshold` (undefined comparison yields `false`). -/
def jsGT (value threshold : JSVal) : Bool := (jsRel threshold value).getD false

/-- JS `value < threshold` (undefined comparison yields `false`). -/
def jsLT (value threshold : JSVal) : Bool := (jsRel value threshold).getD false

/-- JS `value >= threshold`: `¬(value < threshold)` unless undefined. -/
def jsGE (value threshold : JSVal) : Bool :=
  match jsRel value threshold with
  | some b => !b
  | none => false

/-- JS `value <= threshold`: `¬(threshold < value)` unless undefined. -/
def jsLE (value threshold : JSVal) : Bool :=
  match jsRel threshold value with
  | some b => !b
  | none => false

/-- The six operator symbols recognised by `evaluateOperators` (lines 144-162). -/
def knownOps : List String := [">", ">=", "<", "<=", "==", "!="]

/-- One case of the `switch (operator)` statement in `evaluateOperators`:
`some b` is the outcome of a recognised operator's test, `none` is the
`default` branch (unknown operator). -/
def evalOpEntry (value : JSVal) (op : String) (threshold : JSVal) : Option Bool :=
  if op = ">" then some (jsGT value threshold)
  else if op = ">=" then some (jsGE value threshold)
  else if op = "<" then some (jsLT value threshold)
  else if op = "<=" then some (jsLE value threshold)
  else if op = "==" then some (jsLooseEq value threshold)
  else if op = "!=" then some (!jsLooseEq value threshold)
  else none

/-- `evaluateOperators` (lines 142-170), returning the boolean result paired
with the messages written to `console.warn` (the observability sink).
A failing recognised operator returns `false` immediately with no warning; an
unknown operator warns and returns `false`; an empty operator object is `true`. -/
def evaluateOperatorsW (value : JSVal) : List (String × JSVal) → Bool × List String
  | [] => (true, [])
  | (op, threshold) :: rest =>
    match evalOpEntry value op threshold with
    | some true => evaluateOperatorsW value rest
    | some false => (false, [])
    | none => (false, ["Unknown operator: " ++ op])

/-- A scalar condition literal: `typeof condition` is `'string'`, `'boolean'`
or `'number'` (line 120). -/
inductive Scalar where
  | num (q : ℚ)
  | str (s : String)
  | bool (b : Bool)
deriving DecidableEq, Repr

/-- The JS value a scalar condition denotes. -/
def Scalar.toVal : Scalar → JSVal
  | .num q => .num q
  | .str s => .str s
  | .bool b => .bool b

/-- A single condition in a rule trigger: either a scalar literal (compared on
line 121 with strict `!==`) or an operator object dispatched to
`evaluateOperators` (line 127). -/
inductive Cond where
  | scalar (v : Scalar)
  | ops (entries : List (String × JSVal))
deriving DecidableEq, Repr

/-- One iteration of the `evaluateConditions` loop body (lines 111-130) for a
single `(key, condition)` entry, given `signals[key]` (`none` = key absent):
an absent or `null` signal fails; a scalar condition requires strict equality;
an operator object is evaluated by `evaluateOperatorsW`.  Returns the boolean
outcome paired with emitted warnings. -/
def evalCondEntry (v : Option JSVal) (c : Cond) : Bool × List String :=
  match v with
  | none => (false, [])
  | some .null => (false, [])
  | some value =>
    match c with
    | .scalar sc => (decide (value = sc.toVal), [])
    | .ops entries => evaluateOperatorsW value entries

/-- `evaluateConditions` (lines 110-134) with its warning log: every entry of
the trigger must pass; the first failing entry short-circuits to `false`. -/
def evaluateConditionsW : List (String × Cond) → List (String × JSVal) → Bool × List String
  | [], _ => (true, [])
  | (k, c) :: rest, signals =>
    let e := evalCondEntry (signals.lookup k) c
    if e.1 then
      let r := evaluateConditionsW rest signals
      (r.1, e.2 ++ r.2)
    else (false, e.2)

/-- Per-hypothesis mutable state during one analysis: the running `score` and
the one-way `eliminated` flag (absent in the JSON source, hence initially
`false`, the truthiness of `undefined`). -/
structure HypState where
  score : ℚ
  eliminated : Bool
deriving DecidableEq, Repr

/-- An elimination rule (`elimination_rules` entry): `{id, if, eliminate,
explanation}`.  The source's `if` field is named `ifCond` (`if` is reserved). -/
structure ERule where
  id : String
  ifCond : List (String × Cond)
  eliminate : List String
  explanation : String
deriving DecidableEq, Repr

/-- A scoring rule (`rules` entry): `{id, if, then, explanation}`.  The
source's `if`/`then` fields are named `ifCond`/`thenScores` (reserved words). -/
structure SRule where
  id : String
  ifCond : List (String × Cond)
  thenScores : List (String × ℚ)
  explanation : String
deriving DecidableEq, Repr

/-- The immutable rule-set document: initial hypothesis scores (in declaration
order), the two ordered rule lists, and the per-hypothesis next-steps table. -/
structure RuleSet where
  hypotheses : List (String × ℚ)
  elimination_rules : List ERule
  rules : List SRule
  next_steps : List (String × List String)
deriving DecidableEq, Repr

/-- An entry of `this.appliedRules`: elimination records carry `{id, type,
explanation}` (lines 61-65), scoring records additionally snapshot the delta
map (lines 94-99). -/
inductive AppliedRule where
  | elimination (id explanation : String)
  | scoring (id explanation : String) (scores : List (String × ℚ))
deriving DecidableEq, Repr

/-- The per-analysis mutable instance state: `this.hypotheses`,
`this.eliminatedCauses`, `this.appliedRules`. -/
structure EngineState where
  hyps : List (String × HypState)
  eliminatedCauses : List String
  appliedRules : List AppliedRule
deriving DecidableEq, Repr

/-- The deep copy `JSON.parse(JSON.stringify(rules.hypotheses))` (lines 14/26):
each hypothesis starts with its configured score and no `eliminated` flag. -/
def initHyps (rules : RuleSet) : List (String × HypState) :=
  rules.hypotheses.map fun p => (p.1, { score := p.2, eliminated := false })

/-- The state after the reset at the top of `analyze` (lines 25-28). -/
def initState (rules : RuleSet) : EngineState :=
  { hyps := initHyps rules, eliminatedCauses := [], appliedRules := [] }

/-- Assign `this.hypotheses[name] = f (this.hypotheses[name])` when the key
exists (JS objects have unique keys; mapping over the list leaves the
declaration order unchanged, as property assignment does). -/
def updateHyp (name : String) (f : HypState → HypState) (hyps : List (String × HypState)) :
    List (String × HypState) :=
  hyps.map fun p => if p.1 = name then (p.1, f p.2) else p

/-- The body of the inner elimination loop (lines 50-58): when the hypothesis
exists, lock it at score 0 with `eliminated = true` and record it in
`eliminatedCauses` unless already present. -/
def eliminateHyp (name : String) (st : EngineState) : EngineState :=
  if (st.hyps.lookup name).isSome then
    { st with
      hyps := updateHyp name (fun _ => { score := 0, eliminated := true }) st.hyps
      eliminatedCauses :=
        if name ∈ st.eliminatedCauses then st.eliminatedCauses
        else st.eliminatedCauses ++ [name] }
  else st

/-- `applyEliminationRules` (lines 46-68): for each rule whose trigger matches,
eliminate the named hypotheses and append an elimination record. -/
def applyEliminationRules (erules : List ERule) (signals : List (String × JSVal))
    (st : EngineState) : EngineState :=
  erules.foldl
    (fun st rule =>
      if (evaluateConditionsW rule.ifCond signals).1 then
        let st1 := rule.eliminate.foldl (fun s n => eliminateHyp n s) st
        { st1 with
          appliedRules := st1.appliedRules ++ [.elimination rule.id rule.explanation] }
      else st)
    st

/-- One `(hypothesis, scoreChange)` entry of a scoring rule's `then` map
(lines 78-91): skipped when the hypothesis is absent or eliminated, otherwise
the delta is added and the score clamped at a floor of 0. -/
def applyScoreDelta (name : String) (delta : ℚ) (hyps : List (String × HypState)) :
    List (String × HypState) :=
  updateHyp name
    (fun h =>
      if h.eliminated then h
      else
        let s := h.score + delta
        { score := if s < 0 then 0 else s, eliminated := h.eliminated })
    hyps

/-- Apply a scoring rule's whole `then` map in entry order. -/
def applyThen (entries : List (String × ℚ)) (hyps : List (String × HypState)) :
    List (String × HypState) :=
  entries.foldl (fun hs e => applyScoreDelta e.1 e.2 hs) hyps

/-- `applyScoringRules` (lines 74-102): for each rule whose trigger matches,
apply its deltas and append a scoring record with the raw delta map. -/
def applyScoringRules (srules : List SRule) (signals : List (String × JSVal))
    (st : EngineState) : EngineState :=
  srules.foldl
    (fun st rule =>
      if (evaluateConditionsW rule.ifCond signals).1 then
        { st with
          hyps := applyThen rule.thenScores st.hyps
          appliedRules :=
            st.appliedRules ++ [.scoring rule.id rule.explanation rule.thenScores] }
      else st)
    st

/-- An entry of the `normalizedHypotheses` array (lines 202-206). -/
structure NormHyp where
  name : String
  score : ℚ
  confidence_percent : ℤ
deriving DecidableEq, Repr

/-- JavaScript `Math.round`: round half toward positive infinity,
`⌊x + 1/2⌋`. -/
def jsRound (q : ℚ) : ℤ := ⌊q + 1/2⌋

/-- Modelled from the spec: the "standard round-half-away-from-zero" the spec
prescribes for confidence percentages, stated here for comparison with the
code's `jsRound`. -/
def specRound (q : ℚ) : ℤ := if 0 ≤ q then ⌊q + 1/2⌋ else -⌊-q + 1/2⌋

/-- `appliedRules.filter(r => r.type === 'scoring').map(r => r.explanation)`
(lines 191-193 and 225-227). -/
def appliedExplanations (l : List AppliedRule) : List String :=
  l.filterMap fun r =>
    match r with
    | .scoring _ e _ => some e
    | .elimination _ _ => none

/-- `activeHypotheses` (lines 178-180): non-eliminated hypotheses as
`(name, score)` pairs, in snapshot (= declaration) order. -/
def activeOf (hyps : List (String × HypState)) : List (String × ℚ) :=
  (hyps.filter fun p => !p.2.eliminated).map fun p => (p.1, p.2.score)

/-- `totalScore` (line 183): the sum of active scores. -/
def totalOf (hyps : List (String × HypState)) : ℚ :=
  ((activeOf hyps).map fun p => p.2).sum

/-- `normalizedHypotheses` before sorting (lines 202-206). -/
def normalizedOf (hyps : List (String × HypState)) : List NormHyp :=
  (activeOf hyps).map fun p =>
    { name := p.1, score := p.2, confidence_percent := jsRound (p.2 / totalOf hyps * 100) }

/-- The ordering used by `sort((a, b) => b.confidence_percent - a.confidence_percent)`
(line 209): `a` may precede `b` exactly when `b.confidence_percent ≤ a.confidence_percent`. -/
def rankLe (a b : NormHyp) : Prop := b.confidence_percent ≤ a.confidence_percent

instance : DecidableRel rankLe := fun a b =>
  inferInstanceAs (Decidable (b.confidence_percent ≤ a.confidence_percent))

instance : IsTotal NormHyp rankLe :=
  ⟨fun a b => le_total b.confidence_percent a.confidence_percent⟩

instance : IsTrans NormHyp rankLe :=
  ⟨fun _ _ _ h1 h2 => le_trans h2 h1⟩

/-- Boolean test for a given confidence percentage (used to state stability). -/
def cpEq (c : ℤ) (nh : NormHyp) : Bool := decide (nh.confidence_percent = c)

/-- The sorted `normalizedHypotheses` (line 209).  `Array.prototype.sort` with
the consistent comparator of line 209 is required by ECMAScript to be stable,
and the stable descending sort by `confidence_percent` is exactly insertion
sort under `rankLe`. -/
def rankedOf (hyps : List (String × HypState)) : List NormHyp :=
  List.insertionSort rankLe (normalizedOf hyps)

/-- The result object of `calculateResult`.  The zero-total branch omits the
`raw_score` and `all_hypotheses` fields, modelled with `Option`. -/
structure DiagnosticResult where
  primary_cause : String
  confidence_percent : ℤ
  confidence_level : String
  raw_score : Option ℚ
  evidence : List String
  eliminated_causes : List String
  next_steps : List String
  all_hypotheses : Option (List NormHyp)
  all_scores : List (String × HypState)
  applied_rules : List AppliedRule
deriving DecidableEq, Repr

/-- `calculateResult` (lines 176-248). -/
def calculateResult (rules : RuleSet) (st : EngineState) : DiagnosticResult :=
  if totalOf st.hyps = 0 then
    { primary_cause := "unknown"
      confidence_percent := 0
      confidence_level := "Low"
      raw_score := none
      evidence := appliedExplanations st.appliedRules
      eliminated_causes := st.eliminatedCauses
      next_steps := ["Collect more diagnostic data", "Run additional tests"]
      all_hypotheses := none
      all_scores := st.hyps
      applied_rules := st.appliedRules }
  else
    let sorted := rankedOf st.hyps
    let primaryCause := sorted.headD { name := "", score := 0, confidence_percent := 0 }
    { primary_cause := primaryCause.name
      confidence_percent := primaryCause.confidence_percent
      confidence_level :=
        if 65 ≤ primaryCause.confidence_percent then "High"
        else if 40 ≤ primaryCause.confidence_percent then "Medium"
        else "Low"
      raw_score := some primaryCause.score
      evidence := appliedExplanations st.appliedRules
      eliminated_causes := st.eliminatedCauses
      next_steps :=
        (rules.next_steps.lookup primaryCause.name).getD
          ["Review system logs", "Run additional diagnostics",
            "Contact support if issue persists"]
      all_hypotheses := some sorted
      all_scores := st.hyps
      applied_rules := st.appliedRules }

/-- The state after Step 1 of `analyze` (line 31). -/
def stage1 (rules : RuleSet) (signals : List (String × JSVal)) : EngineState :=
  applyEliminationRules rules.elimination_rules signals (initState rules)

/-- The state after Step 2 of `analyze` (line 34). -/
def stage2 (rules : RuleSet) (signals : List (String × JSVal)) : EngineState :=
  applyScoringRules rules.rules signals (stage1 rules signals)

/-- `analyze` (lines 24-40) as the pure function of the rule set and signals
it computes: reset, eliminate, score, calculate. -/
def analyze (rules : RuleSet) (signals : List (String × JSVal)) : DiagnosticResult :=
  calculateResult rules (stage2 rules signals)

/-- A `DiagnosticEngine` instance: the stored rule reference plus the mutable
instance fields set by the constructor (lines 12-17) and overwritten by each
`analyze` call. -/
structure Engine where
  rules : RuleSet
  hypotheses : List (String × HypState)
  eliminatedCauses : List String
  appliedRules : List AppliedRule
deriving DecidableEq, Repr

/-- The constructor `new DiagnosticEngine(rules)` (lines 12-17). -/
def Engine.create (rules : RuleSet) : Engine :=
  { rules := rules
    hypotheses := initHyps rules
    eliminatedCauses := []
    appliedRules := [] }

/-- The method call `engine.analyze(signals)` on an instance: lines 25-28
reset the mutable fields from `this.rules`, the stages mutate them, and the
calculated result is returned; the post-call instance carries the stage-2
state. -/
def analyzeM (e : Engine) (signals : List (String × JSVal)) : DiagnosticResult × Engine :=
  (analyze e.rules signals,
    { rules := e.rules
      hypotheses := (stage2 e.rules signals).hyps
      eliminatedCauses := (stage2 e.rules signals).eliminatedCauses
      appliedRules := (stage2 e.rules signals).appliedRules })

/-! ## Example rule sets used as concrete witnesses -/

/-- A rule set whose elimination rule always fires on `disk` and whose scoring
rule then targets the eliminated `disk` with a large positive delta. -/
def exRulesElim : RuleSet :=
  { hypotheses := [("dns", 10), ("disk", 10)]
    elimination_rules := [{ id := "e1", ifCond := [], eliminate := ["disk"],
                            explanation := "disk ruled out" }]
    rules := [{ id := "s1", ifCond := [], thenScores := [("disk", 50)],
                explanation := "large positive delta on an eliminated hypothesis" }]
    next_steps := [] }

/-- A rule set with a single zero-scored hypothesis and no rules: the total
active score of any analysis is 0. -/
def exRulesZero : RuleSet :=
  { hypotheses := [("a", 0)], elimination_rules := [], rules := [], next_steps := [] }

/-- Three equally-scored hypotheses and no rules: total 3, each share 100/3. -/
def exRulesThird : RuleSet :=
  { hypotheses := [("a", 1), ("b", 1), ("c", 1)], elimination_rules := [], rules := [],
    next_steps := [] }

/-- A hypothesis starting at 10 hit by always-firing deltas −5 and then −20. -/
def exRulesClamp : RuleSet :=
  { hypotheses := [("h", 10)]
    elimination_rules := []
    rules :=
      [{ id := "d1", ifCond := [], thenScores := [("h", -5)], explanation := "minus five" },
       { id := "d2", ifCond := [], thenScores := [("h", -20)], explanation := "minus twenty" }]
    next_steps := [] }

/-! ## Generic helper lemmas -/

/-- An invariant preserved by every step of a left fold holds of the result. -/
theorem foldl_inv {α σ : Type _} (P : σ → Prop) (f : σ → α → σ) :
    ∀ (l : List α) (s : σ), P s → (∀ t a, a ∈ l → P t → P (f t a)) → P (l.foldl f s)
  | [], _, h, _ => h
  | a :: l, s, h, hstep =>
    foldl_inv P f l (f s a) (hstep s a (List.mem_cons_self a l) h)
      fun t b hb ht => hstep t b (List.mem_cons_of_mem a hb) ht

theorem updateHyp_nil (n : String) (f : HypState → HypState) : updateHyp n f [] = [] := rfl

theorem updateHyp_cons (n : String) (f : HypState → HypState) (k : String) (v : HypState)
    (t : List (String × HypState)) :
    updateHyp n f ((k, v) :: t) =
      (if k = n then (k, f v) else (k, v)) :: updateHyp n f t := rfl

theorem lookup_updateHyp (n : String) (f : HypState → HypState) :
    ∀ (l : List (String × HypState)) (m : String),
      (updateHyp n f l).lookup m = if m = n then (l.lookup m).map f else l.lookup m := by
  intro l
  induction l with
  | nil => intro m; simp [updateHyp, List.lookup]
  | cons p t ih =>
    intro m
    obtain ⟨k, v⟩ := p
    rw [updateHyp_cons]
    by_cases hkn : k = n
    · rw [if_pos hkn]
      by_cases hmk : m = k
      · subst hmk
        rw [if_pos hkn]
        simp [List.lookup]
      · have hbeq : (m == k) = false := beq_eq_false_iff_ne.mpr hmk
        simp only [List.lookup, hbeq]
        exact ih m
    · rw [if_neg hkn]
      by_cases hmk : m = k
      · subst hmk
        rw [if_neg hkn]
        simp [List.lookup]
      · have hbeq : (m == k) = false := beq_eq_false_iff_ne.mpr hmk
        simp only [List.lookup, hbeq]
        exact ih m

/-- Looking up in a key-preserving value map. -/
theorem lookup_map_snd {α β : Type _} (f : α → β) :
    ∀ (l : List (String × α)) (m : String),
      (l.map fun p => (p.1, f p.2)).lookup m = (l.lookup m).map f := by
  intro l
  induction l with
  | nil => intro m; simp [List.lookup]
  | cons p t ih =>
    intro m
    obtain ⟨k, v⟩ := p
    by_cases hmk : m = k
    · subst hmk
      simp [List.lookup]
    · have hbeq : (m == k) = false := beq_eq_false_iff_ne.mpr hmk
      simp only [List.map_cons, List.lookup, hbeq, ih m]

/-- In the freshly reset state every hypothesis is non-eliminated. -/
theorem initState_not_eliminated (rules : RuleSet) (n : String) (h : HypState)
    (hl : (initState rules).hyps.lookup n = some h) : h.eliminated = false := by
  have := lookup_map_snd (fun q : ℚ => ({ score := q, eliminated := false } : HypState))
    rules.hypotheses n
  simp only [initState, initHyps] at hl
  rw [this] at hl
  cases hfind : rules.hypotheses.lookup n with
  | none => rw [hfind] at hl; simp at hl
  | some q =>
    rw [hfind] at hl
    simp only [Option.map_some'] at hl
    cases hl
    rfl

/-- The elimination stage only ever marks a hypothesis eliminated together
with zeroing its score, so "eliminated implies score 0" is invariant. -/
theorem applyEliminationRules_elim_score_zero (erules : List ERule)
    (signals : List (String × JSVal)) (st : EngineState)
    (h0 : ∀ n h, st.hyps.lookup n = some h → h.eliminated = true → h.score = 0) :
    ∀ n h, (applyEliminationRules erules signals st).hyps.lookup n = some h →
      h.eliminated = true → h.score = 0 := by
  refine foldl_inv
    (fun s => ∀ n h, s.hyps.lookup n = some h → h.eliminated = true → h.score = 0)
    _ erules st h0 ?_
  intro t rule _ ht
  dsimp only
  by_cases hc : (evaluateConditionsW rule.ifCond signals).1
  · rw [if_pos hc]
    have hmid :
        ∀ n h, (rule.eliminate.foldl (fun s n => eliminateHyp n s) t).hyps.lookup n = some h →
          h.eliminated = true → h.score = 0 := by
      refine foldl_inv
        (fun s => ∀ n h, s.hyps.lookup n = some h → h.eliminated = true → h.score = 0)
        _ rule.eliminate t ht ?_
      intro s name _ hs n h hl he
      by_cases hsome : (s.hyps.lookup name).isSome
      · unfold eliminateHyp at hl
        rw [if_pos hsome] at hl
        simp only at hl
        rw [lookup_updateHyp] at hl
        by_cases hn : n = name
        · rw [if_pos hn] at hl
          cases hfind : s.hyps.lookup n with
          | none => rw [hfind] at hl; simp at hl
          | some h0' =>
            rw [hfind] at hl
            simp only [Option.map_some'] at hl
            cases hl
            rfl
        · rw [if_neg hn] at hl
          exact hs n h hl he
      · unfold eliminateHyp at hl
        rw [if_neg hsome] at hl
        exact hs n h hl he
    intro n h hl he
    exact hmid n h hl he
  · rw [if_neg hc]
    exact ht

/-- The scoring stage never touches an eliminated hypothesis: its association
entry is left exactly as the elimination stage produced it. -/
theorem applyScoringRules_preserves_eliminated (srules : List SRule)
    (signals : List (String × JSVal)) (st : EngineState) (n : String) (h : HypState)
    (hl : st.hyps.lookup n = some h) (he : h.eliminated = true) :
    (applyScoringRules srules signals st).hyps.lookup n = some h := by
  refine foldl_inv (fun s => s.hyps.lookup n = some h) _ srules st hl ?_
  intro t rule _ ht
  dsimp only
  by_cases hc : (evaluateConditionsW rule.ifCond signals).1
  · rw [if_pos hc]
    refine foldl_inv (fun hs => hs.lookup n = some h) _ rule.thenScores t.hyps ht ?_
    intro hs e _ hhs
    dsimp only
    unfold applyScoreDelta
    rw [lookup_updateHyp]
    by_cases hn : n = e.1
    · rw [if_pos hn, hhs]
      simp [he]
    · rw [if_neg hn]
      exact hhs
  · rw [if_neg hc]
    exact ht

/-- `calculateResult` copies the final snapshot into `all_scores` in both
branches. -/
theorem calculateResult_all_scores (rules : RuleSet) (st : EngineState) :
    (calculateResult rules st).all_scores = st.hyps := by
  unfold calculateResult
  split <;> rfl

/-! ## Non-negativity invariants (for C5 and C6) -/

theorem nonneg_applyScoreDelta (name : String) (delta : ℚ) (hyps : List (String × HypState))
    (h : ∀ p ∈ hyps, 0 ≤ (p : String × HypState).2.score) :
    ∀ p ∈ applyScoreDelta name delta hyps, 0 ≤ p.2.score := by
  intro p hp
  unfold applyScoreDelta updateHyp at hp
  rcases List.mem_map.mp hp with ⟨q, hq, rfl⟩
  by_cases hqn : q.1 = name
  · rw [if_pos hqn]
    dsimp only
    by_cases helim : q.2.eliminated
    · rw [if_pos helim]
      exact h q hq
    · rw [if_neg helim]
      dsimp only
      split_ifs with hneg
      · exact le_refl 0
      · exact not_lt.mp hneg
  · rw [if_neg hqn]
    exact h q hq

theorem nonneg_eliminateHyp (name : String) (st : EngineState)
    (h : ∀ p ∈ st.hyps, 0 ≤ (p : String × HypState).2.score) :
    ∀ p ∈ (eliminateHyp name st).hyps, 0 ≤ p.2.score := by
  intro p hp
  unfold eliminateHyp at hp
  by_cases hs : (st.hyps.lookup name).isSome
  · rw [if_pos hs] at hp
    replace hp : p ∈ updateHyp name (fun _ => { score := 0, eliminated := true }) st.hyps := hp
    unfold updateHyp at hp
    rcases List.mem_map.mp hp with ⟨q, hq, rfl⟩
    by_cases hqn : q.1 = name
    · rw [if_pos hqn]
    · rw [if_neg hqn]
      exact h q hq
  · rw [if_neg hs] at hp
    exact h p hp

theorem nonneg_applyEliminationRules (erules : List ERule) (signals : List (String × JSVal))
    (st : EngineState) (h : ∀ p ∈ st.hyps, 0 ≤ (p : String × HypState).2.score) :
    ∀ p ∈ (applyEliminationRules erules signals st).hyps, 0 ≤ p.2.score := by
  refine foldl_inv (fun s => ∀ p ∈ s.hyps, 0 ≤ (p : String × HypState).2.score)
    _ erules st h ?_
  intro t rule _ ht
  dsimp only
  by_cases hc : (evaluateConditionsW rule.ifCond signals).1
  · rw [if_pos hc]
    exact foldl_inv (fun s => ∀ p ∈ s.hyps, 0 ≤ (p : String × HypState).2.score)
      _ rule.eliminate t ht fun s name _ hs => nonneg_eliminateHyp name s hs
  · rw [if_neg hc]
    exact ht

theorem nonneg_applyScoringRules (srules : List SRule) (signals : List (String × JSVal))
    (st : EngineState) (h : ∀ p ∈ st.hyps, 0 ≤ (p : String × HypState).2.score) :
    ∀ p ∈ (applyScoringRules srules signals st).hyps, 0 ≤ p.2.score := by
  refine foldl_inv (fun s => ∀ p ∈ s.hyps, 0 ≤ (p : String × HypState).2.score)
    _ srules st h ?_
  intro t rule _ ht
  dsimp only
  by_cases hc : (evaluateConditionsW rule.ifCond signals).1
  · rw [if_pos hc]
    exact foldl_inv (fun hyps => ∀ p ∈ hyps, 0 ≤ (p : String × HypState).2.score)
      _ rule.thenScores t.hyps ht fun hs e _ hh => nonneg_applyScoreDelta e.1 e.2 hs hh
  · rw [if_neg hc]
    exact ht

theorem nonneg_initState (rules : RuleSet) (h0 : ∀ p ∈ rules.hypotheses, 0 ≤ (p : String × ℚ).2) :
    ∀ p ∈ (initState rules).hyps, 0 ≤ p.2.score := by
  intro p hp
  rcases List.mem_map.mp hp with ⟨q, hq, rfl⟩
  exact h0 q hq

/-! ## Claim theorems -/

/-- C1: for every rule set and signals, a hypothesis marked eliminated by the
elimination stage has score 0, its snapshot entry is untouched by the entire
scoring stage (so no delta of any sign changes its score from 0 or its flag
from `true`), and the final `all_scores` snapshot shows score 0 and
`eliminated = true`. -/
theorem eliminated_hypothesis_frozen (rules : RuleSet) (signals : List (String × JSVal))
    (name : String) (h : HypState)
    (hl : (stage1 rules signals).hyps.lookup name = some h)
    (he : h.eliminated = true) :
    h.score = 0 ∧
    (stage2 rules signals).hyps.lookup name = some h ∧
    (analyze rules signals).all_scores.lookup name =
      some { score := 0, eliminated := true } := by
  have hzero : h.score = 0 := by
    refine applyEliminationRules_elim_score_zero rules.elimination_rules signals
      (initState rules) ?_ name h hl he
    intro n h2 hl2 he2
    rw [initState_not_eliminated rules n h2 hl2] at he2
    cases he2
  have hfull : h = { score := 0, eliminated := true } := by
    cases h
    simp_all
  have hs2 : (stage2 rules signals).hyps.lookup name = some h :=
    applyScoringRules_preserves_eliminated rules.rules signals (stage1 rules signals)
      name h hl he
  refine ⟨hzero, hs2, ?_⟩
  have hall : (analyze rules signals).all_scores = (stage2 rules signals).hyps :=
    calculateResult_all_scores rules (stage2 rules signals)
  rw [hall, hs2, hfull]

/-- Witness for C1: in `exRulesElim` the elimination rule fires on `disk`, and
despite the scoring rule's +50 delta on `disk`, the final snapshot keeps it at
score 0, eliminated. -/
theorem eliminated_hypothesis_frozen_witness :
    (stage1 exRulesElim []).hyps.lookup "disk" = some { score := 0, eliminated := true } ∧
    ((({ score := 0, eliminated := true } : HypState).score = 0) ∧
      (stage2 exRulesElim []).hyps.lookup "disk" = some { score := 0, eliminated := true } ∧
      (analyze exRulesElim []).all_scores.lookup "disk" =
        some { score := 0, eliminated := true }) :=
  ⟨by decide,
    eliminated_hypothesis_frozen exRulesElim [] "disk" { score := 0, eliminated := true }
      (by decide) rfl⟩

/-- C2: the result of `analyze` is a pure function of the stored rule set and
the signals: two engines sharing a rule set produce the same result whatever
their mutable instance state, and calling `analyze` twice in succession on the
same instance with the same signals returns identical results, since the
per-analysis state is re-initialised from the rule set at the top of every
call. -/
theorem analyze_deterministic_stateless (e e2 : Engine) (signals : List (String × JSVal))
    (h : e2.rules = e.rules) :
    (analyzeM e signals).1 = analyze e.rules signals ∧
    (analyzeM e2 signals).1 = (analyzeM e signals).1 ∧
    (analyzeM (analyzeM e signals).2 signals).1 = (analyzeM e signals).1 :=
  ⟨rfl, by simp [analyzeM, h], rfl⟩

/-- A fresh engine and one whose mutable fields hold leftover junk. -/
def exEngineA : Engine := Engine.create exRulesElim

/-- An engine over the same rules as `exEngineA` with polluted instance state. -/
def exEngineB : Engine :=
  { rules := exRulesElim
    hypotheses := [("junk", { score := 99, eliminated := true })]
    eliminatedCauses := ["junk"]
    appliedRules := [.elimination "x" "y"] }

/-- Witness for C2 at two concrete engine instances sharing a rule set. -/
theorem analyze_deterministic_stateless_witness :
    exEngineB.rules = exEngineA.rules ∧
    ((analyzeM exEngineA []).1 = analyze exEngineA.rules [] ∧
      (analyzeM exEngineB []).1 = (analyzeM exEngineA []).1 ∧
      (analyzeM (analyzeM exEngineA []).2 []).1 = (analyzeM exEngineA []).1) :=
  ⟨rfl, analyze_deterministic_stateless exEngineA exEngineB [] rfl⟩

/-- C5: with the configured initial scores non-negative, every hypothesis
score is non-negative after each individual delta application (the clamp to 0
happens immediately after a delta would drive the score negative) and after
each of the two stages. -/
theorem scores_nonneg (rules : RuleSet) (signals : List (String × JSVal))
    (h0 : ∀ p ∈ rules.hypotheses, 0 ≤ (p : String × ℚ).2) :
    (∀ (hyps : List (String × HypState)) (name : String) (delta : ℚ),
      (∀ p ∈ hyps, 0 ≤ (p : String × HypState).2.score) →
        ∀ p ∈ applyScoreDelta name delta hyps, 0 ≤ p.2.score) ∧
    (∀ p ∈ (stage1 rules signals).hyps, 0 ≤ p.2.score) ∧
    (∀ p ∈ (stage2 rules signals).hyps, 0 ≤ p.2.score) := by
  have h1 : ∀ p ∈ (stage1 rules signals).hyps, 0 ≤ (p : String × HypState).2.score :=
    nonneg_applyEliminationRules rules.elimination_rules signals (initState rules)
      (nonneg_initState rules h0)
  exact ⟨fun hyps name delta h => nonneg_applyScoreDelta name delta hyps h, h1,
    nonneg_applyScoringRules rules.rules signals (stage1 rules signals) h1⟩

/-- Witness for C5 at `exRulesClamp` (score 10, deltas −5 then −20: the claim's
Scenario D), also evaluating the final snapshot to score 0. -/
theorem scores_nonneg_witness :
    (∀ p ∈ exRulesClamp.hypotheses, 0 ≤ (p : String × ℚ).2) ∧
    (stage2 exRulesClamp []).hyps = [("h", { score := 0, eliminated := false })] ∧
    ((∀ (hyps : List (String × HypState)) (name : String) (delta : ℚ),
      (∀ p ∈ hyps, 0 ≤ (p : String × HypState).2.score) →
        ∀ p ∈ applyScoreDelta name delta hyps, 0 ≤ p.2.score) ∧
    (∀ p ∈ (stage1 exRulesClamp []).hyps, 0 ≤ p.2.score) ∧
    (∀ p ∈ (stage2 exRulesClamp []).hyps, 0 ≤ p.2.score)) :=
  ⟨by decide,
    by norm_num [exRulesClamp, stage2, stage1, initState, initHyps, applyEliminationRules,
      applyScoringRules, applyThen, applyScoreDelta, updateHyp, evaluateConditionsW],
    scores_nonneg exRulesClamp [] (by decide)⟩

/-! ## Condition-evaluation helper lemmas -/

/-- A trigger condition that only uses recognised operator symbols. -/
def condOpsKnown : Cond → Prop
  | .scalar _ => True
  | .ops entries => ∀ e ∈ entries, (e : String × JSVal).1 ∈ knownOps

theorem evalOpEntry_none (v : JSVal) (op : String) (th : JSVal) (hop : op ∉ knownOps) :
    evalOpEntry v op th = none := by
  simp only [knownOps, List.mem_cons, List.not_mem_nil, or_false, not_or] at hop
  obtain ⟨h1, h2, h3, h4, h5, h6⟩ := hop
  simp [evalOpEntry, h1, h2, h3, h4, h5, h6]

theorem evalOpEntry_known (v : JSVal) (op : String) (th : JSVal) (hop : op ∈ knownOps) :
    (evalOpEntry v op th).isSome = true := by
  simp only [knownOps, List.mem_cons, List.not_mem_nil, or_false] at hop
  rcases hop with rfl | rfl | rfl | rfl | rfl | rfl <;> simp [evalOpEntry]

/-- An operator object containing an unrecognised operator symbol always
evaluates to `false`, whatever the signal value. -/
theorem unknownOp_opsFalse (v : JSVal) :
    ∀ ops : List (String × JSVal), (∃ e ∈ ops, (e : String × JSVal).1 ∉ knownOps) →
      (evaluateOperatorsW v ops).1 = false := by
  intro ops
  induction ops with
  | nil => rintro ⟨e, he, -⟩; cases he
  | cons a rest ih =>
    rintro ⟨e, he, hu⟩
    obtain ⟨op, th⟩ := a
    rcases List.mem_cons.mp he with heq | htail
    · subst heq
      simp [evaluateOperatorsW, evalOpEntry_none v op th hu]
    · cases hE : evalOpEntry v op th with
      | none => simp [evaluateOperatorsW, hE]
      | some b =>
        cases b
        · simp [evaluateOperatorsW, hE]
        · simp only [evaluateOperatorsW, hE]
          exact ih ⟨e, htail, hu⟩

/-- Recognised operators never warn. -/
theorem opsKnown_noWarn (v : JSVal) :
    ∀ ops : List (String × JSVal), (∀ e ∈ ops, (e : String × JSVal).1 ∈ knownOps) →
      (evaluateOperatorsW v ops).2 = [] := by
  intro ops
  induction ops with
  | nil => intro _; rfl
  | cons a rest ih =>
    intro hk
    obtain ⟨op, th⟩ := a
    have hs := evalOpEntry_known v op th (hk (op, th) (List.mem_cons_self _ _))
    cases hE : evalOpEntry v op th with
    | none => rw [hE] at hs; cases hs
    | some b =>
      cases b
      · simp [evaluateOperatorsW, hE]
      · simp only [evaluateOperatorsW, hE]
        exact ih fun e he => hk e (List.mem_cons_of_mem _ he)

/-- When every operator entry before the unknown one passes, the `default`
branch is reached: the evaluation returns `false` and warns, naming the
operator. -/
theorem warn_on_unknown_reach (v : JSVal) (op : String) (th : JSVal)
    (post : List (String × JSVal)) (hop : op ∉ knownOps) :
    ∀ pre : List (String × JSVal), evaluateOperatorsW v pre = (true, []) →
      evaluateOperatorsW v (pre ++ (op, th) :: post) =
        (false, ["Unknown operator: " ++ op]) := by
  intro pre
  induction pre with
  | nil =>
    intro _
    simp [evaluateOperatorsW, evalOpEntry_none v op th hop]
  | cons a rest ih =>
    intro hpre
    obtain ⟨o, t⟩ := a
    cases hE : evalOpEntry v o t with
    | none => simp [evaluateOperatorsW, hE] at hpre
    | some b =>
      cases b
      · simp [evaluateOperatorsW, hE] at hpre
      · simp only [List.cons_append, evaluateOperatorsW, hE] at hpre ⊢
        exact ih hpre

/-- A condition object with an unknown operator fails for every possible
signal lookup outcome (absent, `null`, or any value). -/
theorem condUnknown_entry_false (ops : List (String × JSVal))
    (h : ∃ e ∈ ops, (e : String × JSVal).1 ∉ knownOps) :
    ∀ x : Option JSVal, (evalCondEntry x (Cond.ops ops)).1 = false := by
  intro x
  match x with
  | none => rfl
  | some .null => rfl
  | some (.num q) => exact unknownOp_opsFalse (.num q) ops h
  | some (.str s) => exact unknownOp_opsFalse (.str s) ops h
  | some (.bool b) => exact unknownOp_opsFalse (.bool b) ops h

/-- If some trigger entry evaluates to `false`, the whole trigger fails. -/
theorem entry_false_propagates (signals : List (String × JSVal)) (k : String) (c : Cond) :
    ∀ conds : List (String × Cond), (k, c) ∈ conds →
      (evalCondEntry (signals.lookup k) c).1 = false →
      (evaluateConditionsW conds signals).1 = false := by
  intro conds
  induction conds with
  | nil => intro h _; cases h
  | cons a rest ih =>
    intro hmem hf
    obtain ⟨k1, c1⟩ := a
    rcases List.mem_cons.mp hmem with heq | htail
    · cases heq
      simp [evaluateConditionsW, hf]
    · simp only [evaluateConditionsW]
      by_cases hE : (evalCondEntry (signals.lookup k1) c1).1
      · simp only [hE, if_true]
        exact ih htail hf
      · simp [hE]

theorem condOpsKnown_entry_noWarn (c : Cond) (hc : condOpsKnown c) :
    ∀ x : Option JSVal, (evalCondEntry x c).2 = [] := by
  intro x
  match x with
  | none => rfl
  | some .null => rfl
  | some (.num q) =>
    cases c with
    | scalar _ => rfl
    | ops l => exact opsKnown_noWarn (.num q) l hc
  | some (.str s) =>
    cases c with
    | scalar _ => rfl
    | ops l => exact opsKnown_noWarn (.str s) l hc
  | some (.bool b) =>
    cases c with
    | scalar _ => rfl
    | ops l => exact opsKnown_noWarn (.bool b) l hc

/-- A trigger whose conditions use only recognised operators emits no warning
at all — in particular a missing signal is never logged. -/
theorem conds_noWarn (signals : List (String × JSVal)) :
    ∀ conds : List (String × Cond), (∀ p ∈ conds, condOpsKnown (p : String × Cond).2) →
      (evaluateConditionsW conds signals).2 = [] := by
  intro conds
  induction conds with
  | nil => intro _; rfl
  | cons a rest ih =>
    intro hk
    obtain ⟨k1, c1⟩ := a
    have he2 : (evalCondEntry (signals.lookup k1) c1).2 = [] :=
      condOpsKnown_entry_noWarn c1 (hk (k1, c1) (List.mem_cons_self _ _)) _
    simp only [evaluateConditionsW]
    by_cases hE : (evalCondEntry (signals.lookup k1) c1).1
    · simp only [hE, if_true, he2, List.nil_append]
      exact ih fun p hp => hk p (List.mem_cons_of_mem _ hp)
    · simp [hE, he2]

/-- `calculateResult` always produces one of the three confidence levels. -/
theorem confidence_level_cases (rules : RuleSet) (st : EngineState) :
    (calculateResult rules st).confidence_level = "Low" ∨
    (calculateResult rules st).confidence_level = "Medium" ∨
    (calculateResult rules st).confidence_level = "High" := by
  unfold calculateResult
  split
  · exact Or.inl rfl
  · dsimp only
    split
    · exact Or.inr (Or.inr rfl)
    · split
      · exact Or.inr (Or.inl rfl)
      · exact Or.inl rfl

/-! ## Claims on condition evaluation -/

/-- C4 (amended): a scalar condition with a present, non-`null` signal is
satisfied exactly when the signal is strictly (`===`) equal to the literal —
not loosely equal. -/
theorem scalar_condition_strict_eq (v : JSVal) (sc : Scalar) (hv : v ≠ JSVal.null) :
    (evalCondEntry (some v) (Cond.scalar sc)).1 = true ↔ v = Scalar.toVal sc := by
  cases v with
  | null => exact absurd rfl hv
  | num q => simp [evalCondEntry]
  | str s => simp [evalCondEntry]
  | bool b => simp [evalCondEntry]

/-- Counterexample for C4 as stated: a numeric signal 5 is loosely equal to
the scalar string condition `"5"`, yet the condition (and the whole trigger)
evaluates to `false`, because line 121 compares with strict `!==`. -/
theorem scalar_condition_loose_eq_cex :
    jsLooseEq (JSVal.num 5) (JSVal.str "5") = true ∧
    (evalCondEntry (some (JSVal.num 5)) (Cond.scalar (Scalar.str "5"))).1 = false ∧
    (evaluateConditionsW [("x", Cond.scalar (Scalar.str "5"))] [("x", JSVal.num 5)]).1 =
      false := by
  decide

/-- Witness for C4 (amended) at signal value `5` and scalar condition `5`. -/
theorem scalar_condition_strict_eq_witness :
    (JSVal.num 5 ≠ JSVal.null) ∧
    ((evalCondEntry (some (JSVal.num 5)) (Cond.scalar (Scalar.num 5))).1 = true ↔
      JSVal.num 5 = Scalar.toVal (Scalar.num 5)) :=
  ⟨by decide, scalar_condition_strict_eq (JSVal.num 5) (Scalar.num 5) (by decide)⟩

/-- C9: a trigger referencing a key absent from the signals fails to match;
no error is possible (evaluation is total by construction) and, as long as
the trigger's operator objects use recognised symbols, nothing is written to
the warning sink — missing data is never logged as a failure. -/
theorem missing_signal_trigger_fails (conds : List (String × Cond))
    (signals : List (String × JSVal)) (k : String) (c : Cond)
    (hmem : (k, c) ∈ conds) (habs : signals.lookup k = none) :
    (evaluateConditionsW conds signals).1 = false ∧
    ((∀ p ∈ conds, condOpsKnown (p : String × Cond).2) →
      (evaluateConditionsW conds signals).2 = []) := by
  constructor
  · refine entry_false_propagates signals k c conds hmem ?_
    rw [habs]
    rfl
  · intro hk
    exact conds_noWarn signals conds hk

/-- Witness for C9: a trigger on the absent key `"x"` against empty signals. -/
theorem missing_signal_trigger_fails_witness :
    (("x", Cond.scalar (Scalar.num 1)) ∈ [("x", Cond.scalar (Scalar.num 1))]) ∧
    (([] : List (String × JSVal)).lookup "x" = none) ∧
    ((evaluateConditionsW [("x", Cond.scalar (Scalar.num 1))] []).1 = false ∧
      ((∀ p ∈ [("x", Cond.scalar (Scalar.num 1))], condOpsKnown (p : String × Cond).2) →
        (evaluateConditionsW [("x", Cond.scalar (Scalar.num 1))] []).2 = [])) :=
  ⟨by decide, rfl,
    missing_signal_trigger_fails [("x", Cond.scalar (Scalar.num 1))] [] "x"
      (Cond.scalar (Scalar.num 1)) (by decide) rfl⟩

/-- C10: a signal bound to `null` is handled by the same guard as an absent
signal (line 115): the per-entry evaluation is literally the same as for a
missing key, it fails for every condition shape without ever comparing `null`
against the condition, and the whole trigger fails. -/
theorem null_signal_treated_missing (conds : List (String × Cond))
    (signals : List (String × JSVal)) (k : String) (c : Cond)
    (hmem : (k, c) ∈ conds) (hnull : signals.lookup k = some JSVal.null) :
    evalCondEntry (some JSVal.null) c = evalCondEntry none c ∧
    (evalCondEntry (some JSVal.null) c).1 = false ∧
    (evaluateConditionsW conds signals).1 = false := by
  refine ⟨rfl, rfl, ?_⟩
  refine entry_false_propagates signals k c conds hmem ?_
  rw [hnull]
  rfl

/-- Witness for C10: the signal `"x" = null` even against the condition
`{"==": null}`, which `null` would loosely satisfy. -/
theorem null_signal_treated_missing_witness :
    (("x", Cond.ops [("==", JSVal.null)]) ∈ [("x", Cond.ops [("==", JSVal.null)])]) ∧
    ([("x", JSVal.null)].lookup "x" = some JSVal.null) ∧
    jsLooseEq JSVal.null JSVal.null = true ∧
    (evalCondEntry (some JSVal.null) (Cond.ops [("==", JSVal.null)]) =
        evalCondEntry none (Cond.ops [("==", JSVal.null)]) ∧
      (evalCondEntry (some JSVal.null) (Cond.ops [("==", JSVal.null)])).1 = false ∧
      (evaluateConditionsW [("x", Cond.ops [("==", JSVal.null)])]
        [("x", JSVal.null)]).1 = false) :=
  ⟨by decide, rfl, by decide,
    null_signal_treated_missing [("x", Cond.ops [("==", JSVal.null)])]
      [("x", JSVal.null)] "x" (Cond.ops [("==", JSVal.null)]) (by decide) rfl⟩

/-- C8 (amended): a trigger condition containing an unrecognised operator
symbol always evaluates to `false` (so the whole trigger fails); when every
operator entry before it passes, a non-fatal warning naming the operator is
written to the sink (if an earlier entry fails first, the evaluation returns
`false` before reaching it and no warning is emitted); and `analyze` always
completes with a result carrying one of the three confidence levels. -/
theorem unknown_operator_fails_nonfatal (rules : RuleSet) (signals : List (String × JSVal))
    (conds : List (String × Cond)) (k op : String) (th v : JSVal)
    (pre post : List (String × JSVal))
    (hop : op ∉ knownOps)
    (hmem : (k, Cond.ops (pre ++ (op, th) :: post)) ∈ conds) :
    (evaluateOperatorsW v (pre ++ (op, th) :: post)).1 = false ∧
    (evaluateConditionsW conds signals).1 = false ∧
    (evaluateOperatorsW v pre = (true, []) →
      evaluateOperatorsW v (pre ++ (op, th) :: post) =
        (false, ["Unknown operator: " ++ op])) ∧
    ((analyze rules signals).confidence_level = "Low" ∨
      (analyze rules signals).confidence_level = "Medium" ∨
      (analyze rules signals).confidence_level = "High") := by
  have hex : ∃ e ∈ pre ++ (op, th) :: post, (e : String × JSVal).1 ∉ knownOps :=
    ⟨(op, th), List.mem_append_right pre (List.mem_cons_self _ _), hop⟩
  refine ⟨unknownOp_opsFalse v _ hex, ?_, warn_on_unknown_reach v op th post hop pre,
    confidence_level_cases rules (stage2 rules signals)⟩
  exact entry_false_propagates signals k _ conds hmem (condUnknown_entry_false _ hex _)

/-- Counterexample for C8 as stated: in the condition `{">": 100, ">>": 5}`
with signal value 5, the recognised `">"` entry fails first, so the condition
is `false` but NO warning is emitted — the unknown operator `">>"` is never
reached. -/
theorem unknown_operator_warning_cex :
    (">>" ∉ knownOps) ∧
    evaluateOperatorsW (JSVal.num 5) [(">", JSVal.num 100), (">>", JSVal.num 5)] =
      (false, []) ∧
    evaluateConditionsW [("x", Cond.ops [(">", JSVal.num 100), (">>", JSVal.num 5)])]
      [("x", JSVal.num 5)] = (false, []) := by
  decide

/-- Witness for C8 (amended): the unknown operator `">>"` after a passing
`">"` entry, showing failure, the warning, and a completed analysis. -/
theorem unknown_operator_fails_nonfatal_witness :
    (">>" ∉ knownOps) ∧
    (("x", Cond.ops ([(">", JSVal.num 1)] ++ (">>", JSVal.num 5) :: [])) ∈
      [("x", Cond.ops [(">", JSVal.num 1), (">>", JSVal.num 5)])]) ∧
    ((evaluateOperatorsW (JSVal.num 5) ([(">", JSVal.num 1)] ++ (">>", JSVal.num 5) :: [])).1 =
        false ∧
      (evaluateConditionsW [("x", Cond.ops [(">", JSVal.num 1), (">>", JSVal.num 5)])]
        [("x", JSVal.num 5)]).1 = false ∧
      (evaluateOperatorsW (JSVal.num 5) [(">", JSVal.num 1)] = (true, []) →
        evaluateOperatorsW (JSVal.num 5) ([(">", JSVal.num 1)] ++ (">>", JSVal.num 5) :: []) =
          (false, ["Unknown operator: " ++ ">>"])) ∧
      ((analyze exRulesZero [("x", JSVal.num 5)]).confidence_level = "Low" ∨
        (analyze exRulesZero [("x", JSVal.num 5)]).confidence_level = "Medium" ∨
        (analyze exRulesZero [("x", JSVal.num 5)]).confidence_level = "High")) :=
  ⟨by decide, by decide,
    unknown_operator_fails_nonfatal exRulesZero [("x", JSVal.num 5)]
      [("x", Cond.ops [(">", JSVal.num 1), (">>", JSVal.num 5)])] "x" ">>"
      (JSVal.num 5) (JSVal.num 5) [(">", JSVal.num 1)] [] (by decide) (by decide)⟩

/-! ## C3: the zero-total "unknown" verdict -/

/-- C3 (amended): when the total active score after both stages is 0,
`analyze` returns the unknown verdict: `primary_cause = "unknown"`,
`confidence_percent = 0`, `confidence_level = "Low"`, evidence = the
explanations of the applied scoring-kind records in order,
`eliminated_causes` as collected, and `next_steps` equal to the fixed generic
TWO-item list `["Collect more diagnostic data", "Run additional tests"]`. -/
theorem unknown_verdict_shape (rules : RuleSet) (signals : List (String × JSVal))
    (h : totalOf (stage2 rules signals).hyps = 0) :
    analyze rules signals =
      { primary_cause := "unknown"
        confidence_percent := 0
        confidence_level := "Low"
        raw_score := none
        evidence := appliedExplanations (stage2 rules signals).appliedRules
        eliminated_causes := (stage2 rules signals).eliminatedCauses
        next_steps := ["Collect more diagnostic data", "Run additional tests"]
        all_hypotheses := none
        all_scores := (stage2 rules signals).hyps
        applied_rules := (stage2 rules signals).appliedRules } := by
  unfold analyze calculateResult
  rw [if_pos h]

/-- Counterexample for C3 as stated: in the unknown verdict the fixed generic
`next_steps` list has TWO items, not three (lines 195 of the source); the
three-item generic list exists only as the positive-branch fallback. -/
theorem unknown_verdict_next_steps_cex :
    (analyze exRulesZero []).primary_cause = "unknown" ∧
    (analyze exRulesZero []).confidence_percent = 0 ∧
    (analyze exRulesZero []).confidence_level = "Low" ∧
    (analyze exRulesZero []).next_steps =
      ["Collect more diagnostic data", "Run additional tests"] ∧
    (analyze exRulesZero []).next_steps.length = 2 ∧
    (analyze exRulesZero []).next_steps.length ≠ 3 := by
  have h : totalOf (stage2 exRulesZero []).hyps = 0 := by
    norm_num [exRulesZero, totalOf, activeOf, stage2, stage1, initState, initHyps,
      applyEliminationRules, applyScoringRules]
  have e : analyze exRulesZero [] =
      { primary_cause := "unknown"
        confidence_percent := 0
        confidence_level := "Low"
        raw_score := none
        evidence := appliedExplanations (stage2 exRulesZero []).appliedRules
        eliminated_causes := (stage2 exRulesZero []).eliminatedCauses
        next_steps := ["Collect more diagnostic data", "Run additional tests"]
        all_hypotheses := none
        all_scores := (stage2 exRulesZero []).hyps
        applied_rules := (stage2 exRulesZero []).appliedRules } := by
    unfold analyze calculateResult
    rw [if_pos h]
  refine ⟨by rw [e], by rw [e], by rw [e], by rw [e], by rw [e]; rfl, by rw [e]; decide⟩

/-- Witness for C3 (amended) at the concrete zero-total rule set. -/
theorem unknown_verdict_shape_witness :
    totalOf (stage2 exRulesZero []).hyps = 0 ∧
    analyze exRulesZero [] =
      { primary_cause := "unknown"
        confidence_percent := 0
        confidence_level := "Low"
        raw_score := none
        evidence := appliedExplanations (stage2 exRulesZero []).appliedRules
        eliminated_causes := (stage2 exRulesZero []).eliminatedCauses
        next_steps := ["Collect more diagnostic data", "Run additional tests"]
        all_hypotheses := none
        all_scores := (stage2 exRulesZero []).hyps
        applied_rules := (stage2 exRulesZero []).appliedRules } := by
  have h : totalOf (stage2 exRulesZero []).hyps = 0 := by
    norm_num [exRulesZero, totalOf, activeOf, stage2, stage1, initState, initHyps,
      applyEliminationRules, applyScoringRules]
  exact ⟨h, unknown_verdict_shape exRulesZero [] h⟩

/-! ## Order preservation of the hypothesis snapshot (declaration order) -/

theorem map_fst_updateHyp (n : String) (f : HypState → HypState)
    (l : List (String × HypState)) :
    (updateHyp n f l).map Prod.fst = l.map Prod.fst := by
  induction l with
  | nil => rfl
  | cons p t ih =>
    obtain ⟨k, v⟩ := p
    rw [updateHyp_cons]
    by_cases hk : k = n
    · rw [if_pos hk]
      simp [ih]
    · rw [if_neg hk]
      simp [ih]

theorem map_fst_eliminateHyp (name : String) (st : EngineState) :
    (eliminateHyp name st).hyps.map Prod.fst = st.hyps.map Prod.fst := by
  unfold eliminateHyp
  by_cases hs : (st.hyps.lookup name).isSome
  · rw [if_pos hs]
    exact map_fst_updateHyp name (fun _ => { score := 0, eliminated := true }) st.hyps
  · rw [if_neg hs]

theorem map_fst_applyEliminationRules (erules : List ERule) (signals : List (String × JSVal))
    (st : EngineState) :
    (applyEliminationRules erules signals st).hyps.map Prod.fst = st.hyps.map Prod.fst := by
  refine foldl_inv (fun s => s.hyps.map Prod.fst = st.hyps.map Prod.fst) _ erules st rfl ?_
  intro t rule _ ht
  dsimp only
  by_cases hc : (evaluateConditionsW rule.ifCond signals).1
  · rw [if_pos hc]
    have hmid : (rule.eliminate.foldl (fun s n => eliminateHyp n s) t).hyps.map Prod.fst =
        t.hyps.map Prod.fst := by
      refine foldl_inv (fun s => s.hyps.map Prod.fst = t.hyps.map Prod.fst)
        _ rule.eliminate t rfl ?_
      intro s name _ hsname
      dsimp only
      rw [map_fst_eliminateHyp, hsname]
    exact hmid.trans ht
  · rw [if_neg hc]
    exact ht

theorem map_fst_applyScoringRules (srules : List SRule) (signals : List (String × JSVal))
    (st : EngineState) :
    (applyScoringRules srules signals st).hyps.map Prod.fst = st.hyps.map Prod.fst := by
  refine foldl_inv (fun s => s.hyps.map Prod.fst = st.hyps.map Prod.fst) _ srules st rfl ?_
  intro t rule _ ht
  dsimp only
  by_cases hc : (evaluateConditionsW rule.ifCond signals).1
  · rw [if_pos hc]
    have hmid : (applyThen rule.thenScores t.hyps).map Prod.fst = t.hyps.map Prod.fst := by
      refine foldl_inv (fun hs => hs.map Prod.fst = t.hyps.map Prod.fst)
        _ rule.thenScores t.hyps rfl ?_
      intro hs e _ hh
      dsimp only
      unfold applyScoreDelta
      rw [map_fst_updateHyp, hh]
    exact hmid.trans ht
  · rw [if_neg hc]
    exact ht

theorem map_fst_initHyps (rules : RuleSet) :
    (initHyps rules).map Prod.fst = rules.hypotheses.map Prod.fst := by
  unfold initHyps
  rw [List.map_map]
  rfl

theorem map_fst_stage2 (rules : RuleSet) (signals : List (String × JSVal)) :
    (stage2 rules signals).hyps.map Prod.fst = rules.hypotheses.map Prod.fst := by
  rw [stage2, map_fst_applyScoringRules, stage1, map_fst_applyEliminationRules]
  exact map_fst_initHyps rules

/-- `analyze` returns the final snapshot verbatim as `all_scores`. -/
theorem analyze_all_scores (rules : RuleSet) (signals : List (String × JSVal)) :
    (analyze rules signals).all_scores = (stage2 rules signals).hyps :=
  calculateResult_all_scores rules (stage2 rules signals)

/-! ## Stability of the ranking sort -/

theorem filter_cp_pairwise (l : List NormHyp) (c : ℤ) :
    (l.filter (cpEq c)).Pairwise rankLe := by
  refine List.pairwise_of_forall_mem_list ?_
  intro a ha b hb
  have ha2 := (List.mem_filter.mp ha).2
  have hb2 := (List.mem_filter.mp hb).2
  simp only [cpEq, decide_eq_true_eq] at ha2 hb2
  unfold rankLe
  rw [ha2, hb2]

/-- Stability of the ranking: for every percentage value the sorted list keeps
exactly the elements with that percentage, in their original relative order. -/
theorem stable_filter (l : List NormHyp) (c : ℤ) :
    (List.insertionSort rankLe l).filter (cpEq c) = l.filter (cpEq c) := by
  have hsub : List.Sublist (l.filter (cpEq c)) (List.insertionSort rankLe l) :=
    List.sublist_insertionSort (filter_cp_pairwise l c) (List.filter_sublist l)
  have hsub2 : List.Sublist ((l.filter (cpEq c)).filter (cpEq c))
      ((List.insertionSort rankLe l).filter (cpEq c)) := hsub.filter (cpEq c)
  rw [List.filter_eq_self.mpr fun a ha => (List.mem_filter.mp ha).2] at hsub2
  have hperm : List.Perm ((List.insertionSort rankLe l).filter (cpEq c))
      (l.filter (cpEq c)) :=
    (List.perm_insertionSort rankLe l).filter (cpEq c)
  exact (hsub2.eq_of_length hperm.length_eq.symm).symm

theorem insertionSort_head_max (l : List NormHyp) (m : NormHyp) (t : List NormHyp)
    (h : List.insertionSort rankLe l = m :: t) :
    ∀ b ∈ l, b.confidence_percent ≤ m.confidence_percent := by
  intro b hb
  have hbs : b ∈ List.insertionSort rankLe l := (List.mem_insertionSort rankLe).mpr hb
  rw [h] at hbs
  have hsorted := List.sorted_insertionSort rankLe l
  rw [h] at hsorted
  rcases List.mem_cons.mp hbs with rfl | hbt
  · exact le_refl _
  · exact (List.pairwise_cons.mp hsorted).1 b hbt

theorem insertionSort_head_first (l : List NormHyp) (m : NormHyp) (t : List NormHyp)
    (h : List.insertionSort rankLe l = m :: t) :
    (l.filter (cpEq m.confidence_percent)).head? = some m := by
  rw [← stable_filter l m.confidence_percent, h, List.filter_cons_of_pos (by simp [cpEq])]
  rfl

theorem activeOf_ne_nil (hyps : List (String × HypState)) (ht : 0 < totalOf hyps) :
    activeOf hyps ≠ [] := by
  intro he
  rw [totalOf, he] at ht
  simp at ht

theorem rankedOf_ne_nil (hyps : List (String × HypState)) (ht : 0 < totalOf hyps) :
    rankedOf hyps ≠ [] := by
  intro he
  apply activeOf_ne_nil hyps ht
  have hlen : (rankedOf hyps).length = (activeOf hyps).length := by
    rw [rankedOf, List.length_insertionSort, normalizedOf, List.length_map]
  rw [he] at hlen
  exact List.length_eq_zero.mp hlen.symm

/-- The positive branch of `calculateResult`: the ranked list is published as
`all_hypotheses` and the primary cause is the head of the ranked list. -/
theorem calculateResult_pos (rules : RuleSet) (st : EngineState)
    (h : totalOf st.hyps ≠ 0) :
    (calculateResult rules st).all_hypotheses = some (rankedOf st.hyps) ∧
    (calculateResult rules st).primary_cause =
      ((rankedOf st.hyps).headD
        { name := "", score := 0, confidence_percent := 0 }).name := by
  unfold calculateResult
  rw [if_neg h]
  exact ⟨rfl, rfl⟩

/-- C7: with positive total active score the published ranked list is the
active hypotheses sorted descending by `confidence_percent`; hypotheses with
equal percentages keep their relative declaration order (the snapshot's key
order is exactly the `hypotheses` declaration order); and `primary_cause` is
the earliest-declared hypothesis among those of maximal percentage. -/
theorem ranking_sorted_stable (rules : RuleSet) (signals : List (String × JSVal))
    (ht : 0 < totalOf (stage2 rules signals).hyps) :
    (analyze rules signals).all_scores.map Prod.fst = rules.hypotheses.map Prod.fst ∧
    (analyze rules signals).all_hypotheses = some (rankedOf (stage2 rules signals).hyps) ∧
    (rankedOf (stage2 rules signals).hyps).Pairwise rankLe ∧
    (∀ c : ℤ, (rankedOf (stage2 rules signals).hyps).filter (cpEq c) =
      (normalizedOf (stage2 rules signals).hyps).filter (cpEq c)) ∧
    ∃ m, (rankedOf (stage2 rules signals).hyps).head? = some m ∧
      (analyze rules signals).primary_cause = m.name ∧
      (∀ b ∈ normalizedOf (stage2 rules signals).hyps,
        b.confidence_percent ≤ m.confidence_percent) ∧
      ((normalizedOf (stage2 rules signals).hyps).filter
        (cpEq m.confidence_percent)).head? = some m := by
  have hne : totalOf (stage2 rules signals).hyps ≠ 0 := ne_of_gt ht
  obtain ⟨hall, hprim⟩ := calculateResult_pos rules (stage2 rules signals) hne
  have hnames : (analyze rules signals).all_scores.map Prod.fst =
      rules.hypotheses.map Prod.fst := by
    rw [analyze_all_scores]
    exact map_fst_stage2 rules signals
  obtain ⟨m, t, hmt⟩ : ∃ m t, rankedOf (stage2 rules signals).hyps = m :: t := by
    rcases hx : rankedOf (stage2 rules signals).hyps with _ | ⟨m, t⟩
    · exact absurd hx (rankedOf_ne_nil _ ht)
    · exact ⟨m, t, rfl⟩
  refine ⟨hnames, hall, List.sorted_insertionSort rankLe _,
    fun c => stable_filter (normalizedOf (stage2 rules signals).hyps) c,
    m, ?_, ?_, insertionSort_head_max (normalizedOf (stage2 rules signals).hyps) m t hmt,
    insertionSort_head_first (normalizedOf (stage2 rules signals).hyps) m t hmt⟩
  · rw [hmt]
    rfl
  · show (calculateResult rules (stage2 rules signals)).primary_cause = m.name
    rw [hprim, hmt]
    rfl

/-! ## Rounding error bounds (for C6) -/

theorem jsRound_err (q : ℚ) : |(jsRound q : ℚ) - q| ≤ 1 / 2 := by
  rw [abs_le]
  unfold jsRound
  constructor
  · have h := Int.sub_one_lt_floor (q + 1 / 2)
    linarith
  · have h := Int.floor_le (q + 1 / 2)
    linarith

theorem roundSum_err {α : Type _} (g : α → ℚ) : ∀ l : List α,
    |(l.map fun x => ((jsRound (g x) : ℤ) : ℚ)).sum - (l.map g).sum| ≤ (l.length : ℚ) / 2 := by
  intro l
  induction l with
  | nil => simp
  | cons a t ih =>
    simp only [List.map_cons, List.sum_cons, List.length_cons]
    have h1 := jsRound_err (g a)
    have h3 : ((jsRound (g a) : ℚ) + (t.map fun x => ((jsRound (g x) : ℤ) : ℚ)).sum) -
        (g a + (t.map g).sum) =
        ((jsRound (g a) : ℚ) - g a) +
          ((t.map fun x => ((jsRound (g x) : ℤ) : ℚ)).sum - (t.map g).sum) := by ring
    rw [h3]
    refine (abs_add _ _).trans ?_
    push_cast
    linarith

theorem cast_sum_jsRound {α : Type _} (g : α → ℚ) : ∀ l : List α,
    (((l.map fun x => jsRound (g x)).sum : ℤ) : ℚ) =
      (l.map fun x => ((jsRound (g x) : ℤ) : ℚ)).sum := by
  intro l
  induction l with
  | nil => simp
  | cons a t ih =>
    simp only [List.map_cons, List.sum_cons, Int.cast_add, ih]

theorem sum_map_ratio (T : ℚ) : ∀ l : List (String × ℚ),
    (l.map fun p => p.2 / T * 100).sum = (l.map fun p => p.2).sum / T * 100 := by
  intro l
  induction l with
  | nil => simp
  | cons a t ih =>
    simp only [List.map_cons, List.sum_cons, ih]
    ring

/-- The rounded percentage shares of any decomposition of a non-zero total sum
to within half a unit per share of 100. -/
theorem jsRound_sum_bound (A : List (String × ℚ)) (T : ℚ) (hT : T ≠ 0)
    (hsum : (A.map fun p => p.2).sum = T) :
    |(A.map fun p => jsRound (p.2 / T * 100)).sum - 100| ≤ (A.length : ℤ) := by
  have herr := roundSum_err (fun p : String × ℚ => p.2 / T * 100) A
  have hq : (A.map fun p => p.2 / T * 100).sum = 100 := by
    rw [sum_map_ratio, hsum, div_self hT, one_mul]
  rw [hq] at herr
  have hcast := cast_sum_jsRound (fun p : String × ℚ => p.2 / T * 100) A
  have hQ : |(((A.map fun p => jsRound (p.2 / T * 100)).sum : ℤ) : ℚ) - 100| ≤
      (A.length : ℚ) := by
    rw [hcast]
    refine herr.trans ?_
    have h0 : (0 : ℚ) ≤ (A.length : ℚ) := Nat.cast_nonneg _
    linarith
  exact_mod_cast hQ

theorem ranked_sum_bound (hyps : List (String × HypState)) (ht : 0 < totalOf hyps) :
    |((rankedOf hyps).map fun nh => nh.confidence_percent).sum - 100| ≤
      ((rankedOf hyps).length : ℤ) := by
  have hperm : List.Perm ((rankedOf hyps).map fun nh => nh.confidence_percent)
      ((normalizedOf hyps).map fun nh => nh.confidence_percent) :=
    (List.perm_insertionSort rankLe (normalizedOf hyps)).map _
  have hsum := hperm.sum_eq
  have hmapeq : ((normalizedOf hyps).map fun nh => nh.confidence_percent) =
      (activeOf hyps).map fun p => jsRound (p.2 / totalOf hyps * 100) := by
    unfold normalizedOf
    rw [List.map_map]
    rfl
  have hlen : (rankedOf hyps).length = (activeOf hyps).length := by
    rw [rankedOf, List.length_insertionSort, normalizedOf, List.length_map]
  rw [hsum, hmapeq, hlen]
  exact jsRound_sum_bound (activeOf hyps) (totalOf hyps) (ne_of_gt ht) rfl

theorem activeOf_nonneg (hyps : List (String × HypState))
    (h : ∀ p ∈ hyps, 0 ≤ (p : String × HypState).2.score) :
    ∀ p ∈ activeOf hyps, 0 ≤ (p : String × ℚ).2 := by
  intro p hp
  unfold activeOf at hp
  rcases List.mem_map.mp hp with ⟨q, hq, rfl⟩
  exact h q (List.mem_filter.mp hq).1

/-- C6: with the configured initial scores non-negative (the spec's
configuration contract) and a positive total active score, every ranked
hypothesis carries `confidence_percent = round(score / total * 100)`, where
the code's `Math.round` agrees with the spec's round-half-away-from-zero on
these (non-negative) arguments, and the percentages sum to within the number
of active hypotheses of 100, with no re-normalisation. -/
theorem confidence_percent_rounding_sum (rules : RuleSet) (signals : List (String × JSVal))
    (h0 : ∀ p ∈ rules.hypotheses, 0 ≤ (p : String × ℚ).2)
    (ht : 0 < totalOf (stage2 rules signals).hyps) :
    (analyze rules signals).all_hypotheses = some (rankedOf (stage2 rules signals).hyps) ∧
    (∀ nh ∈ rankedOf (stage2 rules signals).hyps,
      nh.confidence_percent =
          jsRound (nh.score / totalOf (stage2 rules signals).hyps * 100) ∧
        nh.confidence_percent =
          specRound (nh.score / totalOf (stage2 rules signals).hyps * 100)) ∧
    |((rankedOf (stage2 rules signals).hyps).map fun nh => nh.confidence_percent).sum -
        100| ≤
      ((rankedOf (stage2 rules signals).hyps).length : ℤ) := by
  have hne : totalOf (stage2 rules signals).hyps ≠ 0 := ne_of_gt ht
  refine ⟨(calculateResult_pos rules (stage2 rules signals) hne).1, ?_,
    ranked_sum_bound (stage2 rules signals).hyps ht⟩
  intro nh hnh
  have hmem : nh ∈ normalizedOf (stage2 rules signals).hyps :=
    (List.mem_insertionSort rankLe).mp hnh
  rcases List.mem_map.mp hmem with ⟨p, hp, rfl⟩
  have hscore : 0 ≤ p.2 := by
    refine activeOf_nonneg (stage2 rules signals).hyps ?_ p hp
    exact nonneg_applyScoringRules rules.rules signals (stage1 rules signals)
      (nonneg_applyEliminationRules rules.elimination_rules signals (initState rules)
        (nonneg_initState rules h0))
  have hq : 0 ≤ p.2 / totalOf (stage2 rules signals).hyps * 100 :=
    mul_nonneg (div_nonneg hscore (le_of_lt ht)) (by norm_num)
  refine ⟨rfl, ?_⟩
  show jsRound (p.2 / totalOf (stage2 rules signals).hyps * 100) =
    specRound (p.2 / totalOf (stage2 rules signals).hyps * 100)
  unfold specRound jsRound
  rw [if_pos hq]

/-- Witness for C6 at three equal scores: each share is round(100/3) = 33 and
the shares sum to 99, within 3 of 100. -/
theorem confidence_percent_rounding_sum_witness :
    (∀ p ∈ exRulesThird.hypotheses, 0 ≤ (p : String × ℚ).2) ∧
    0 < totalOf (stage2 exRulesThird []).hyps ∧
    ((analyze exRulesThird []).all_hypotheses =
        some (rankedOf (stage2 exRulesThird []).hyps) ∧
      (∀ nh ∈ rankedOf (stage2 exRulesThird []).hyps,
        nh.confidence_percent =
            jsRound (nh.score / totalOf (stage2 exRulesThird []).hyps * 100) ∧
          nh.confidence_percent =
            specRound (nh.score / totalOf (stage2 exRulesThird []).hyps * 100)) ∧
      |((rankedOf (stage2 exRulesThird []).hyps).map
          fun nh => nh.confidence_percent).sum - 100| ≤
        ((rankedOf (stage2 exRulesThird []).hyps).length : ℤ)) := by
  have h0 : ∀ p ∈ exRulesThird.hypotheses, 0 ≤ (p : String × ℚ).2 := by decide
  have ht : 0 < totalOf (stage2 exRulesThird []).hyps := by
    norm_num [exRulesThird, totalOf, activeOf, stage2, stage1, initState, initHyps,
      applyEliminationRules, applyScoringRules]
  exact ⟨h0, ht, confidence_percent_rounding_sum exRulesThird [] h0 ht⟩

/-- Witness for C7 at the Scenario-B tie: three hypotheses with equal scores,
where the earliest-declared must rank first. -/
theorem ranking_sorted_stable_witness :
    0 < totalOf (stage2 exRulesThird []).hyps ∧
    ((analyze exRulesThird []).all_scores.map Prod.fst =
        exRulesThird.hypotheses.map Prod.fst ∧
      (analyze exRulesThird []).all_hypotheses =
        some (rankedOf (stage2 exRulesThird []).hyps) ∧
      (rankedOf (stage2 exRulesThird []).hyps).Pairwise rankLe ∧
      (∀ c : ℤ, (rankedOf (stage2 exRulesThird []).hyps).filter (cpEq c) =
        (normalizedOf (stage2 exRulesThird []).hyps).filter (cpEq c)) ∧
      ∃ m, (rankedOf (stage2 exRulesThird []).hyps).head? = some m ∧
        (analyze exRulesThird []).primary_cause = m.name ∧
        (∀ b ∈ normalizedOf (stage2 exRulesThird []).hyps,
          b.confidence_percent ≤ m.confidence_percent) ∧
        ((normalizedOf (stage2 exRulesThird []).hyps).filter
          (cpEq m.confidence_percent)).head? = some m) := by
  have ht : 0 < totalOf (stage2 exRulesThird []).hyps := by
    norm_num [exRulesThird, totalOf, activeOf, stage2, stage1, initState, initHyps,
      applyEliminationRules, applyScoringRules]
  exact ⟨ht, ranking_sorted_stable exRulesThird [] ht⟩

end WebAnalyzer
